import Mathlib

/-!
Verification of the jirafly ticket classification and aggregation engine.

Shallow embedding of the relevant Python source:
  * `src/jirafly/models.py`   — ticket classification (`Task.from_raw_issue`,
    `Task._extract_version_number`)
  * `src/jirafly/utils.py`    — `format_seconds`, `highlight_exceeding`,
    `print_general_info` (ratio/percentage computation)
  * `src/jirafly/cli.py`      — the `ratio` command's release bucketing
  * `src/jirafly/team_config.py` — team member validation and overrides

Machine-level conventions: Python floats are embedded as `ℚ`, Python ints as
`ℤ`/`ℕ` where the source guarantees non-negativity, fallible Python code
(raising `ZeroDivisionError`, `IndexError`, `ValueError`) as `Except Unit _`.
-/

namespace Jirafly

/-- The constant `UNASSIGNED = "Unassigned"` from `models.py`. -/
def UNASSIGNED : String := "Unassigned"

/-! ## Ratio classification (`models.py`, `Task.from_raw_issue`, lines 67–76) -/

/-- The four values the `ratio_type` field can take in `Task.from_raw_issue`. -/
inductive RatioType where
  | Excluded
  | Maintenance
  | Bug
  | Product
deriving DecidableEq, Repr

/-- Embeds the `ratio_type` assignment of `Task.from_raw_issue`:
`any(label in labels for label in ["RatioExcluded", "Bughunting"])` is list
membership of either string, and so on down the `elif` chain. -/
def ratioType (labels : List String) (ty : String) : RatioType :=
  if labels.contains "RatioExcluded" || labels.contains "Bughunting" then
    .Excluded
  else if labels.contains "Maintenance" || labels.contains "DevOps" then
    .Maintenance
  else if ty == "Bug" then
    .Bug
  else
    .Product

/-! ## Version-label extraction (`models.py`, `Task._extract_version_number`,
lines 103–117) -/

/-- The whitespace characters recognised by Python `str.split()` with no
argument. -/
def pyIsSpace (c : Char) : Bool :=
  c == ' ' || c == '\t' || c == '\n' || c == '\r' || c == '\x0b' || c == '\x0c'

/-- Model of Python `str.split()` with no argument, over the character list:
maximal runs of non-whitespace characters, empty tokens discarded. `acc`
holds the current token's characters in reverse. -/
def pySplitWsAux (acc : List Char) : List Char → List String
  | [] => if acc = [] then [] else [String.mk acc.reverse]
  | c :: cs =>
    if pyIsSpace c then
      if acc = [] then pySplitWsAux [] cs
      else String.mk acc.reverse :: pySplitWsAux [] cs
    else pySplitWsAux (c :: acc) cs

/-- Model of Python `str.split()` with no argument. -/
def pySplitWs (s : String) : List String :=
  pySplitWsAux [] s.data

/-- Model of Python `str.split(sep)` for a one-character separator: empty
tokens are kept (`"".split(".") == [""]`, `"a..b".split(".") == ["a","","b"]`). -/
def pySplitSepAux (sep : Char) (acc : List Char) : List Char → List String
  | [] => [String.mk acc.reverse]
  | c :: cs =>
    if c = sep then String.mk acc.reverse :: pySplitSepAux sep [] cs
    else pySplitSepAux sep (c :: acc) cs

/-- Model of Python `str.split(".")`. -/
def pySplitDot (s : String) : List String :=
  pySplitSepAux '.' [] s.data

/-- Embeds `Task._extract_version_number`: empty (falsy) input returns
`None`; `version_name.split()[0]` raises `IndexError` (embedded as
`Except.error ()`) when the split yields no token, i.e. on whitespace-only
input; otherwise the leading token is split on `"."` and `"{p0}.{p1}"` is
returned when at least two parts exist, else the token unchanged. -/
def extract_version_number (version_name : String) : Except Unit (Option String) :=
  if version_name == "" then .ok none
  else
    match pySplitWs version_name with
    | [] => .error ()
    | version_part :: _ =>
      match pySplitDot version_part with
      | p0 :: p1 :: _ => .ok (some (p0 ++ "." ++ p1))
      | _ => .ok (some version_part)

/-! ## Assignee resolution (`models.py`, `Task.from_raw_issue`, lines 40–45) -/

/-- A raw Jira assignee object, embedded as a Python dict from string keys to
possibly-null string values. -/
structure RawAssignee where
  entries : List (String × Option String)
deriving DecidableEq

/-- Python `dict.get(k)`: `None` both when the key is absent and when its
value is null. -/
def RawAssignee.get (d : RawAssignee) (k : String) : Option String :=
  match d.entries.lookup k with
  | some v => v
  | none => none

/-- Python truthiness of a dict: nonempty. -/
def RawAssignee.truthy (d : RawAssignee) : Bool :=
  !d.entries.isEmpty

/-- Embeds `fields.get("assignee")` being `None`/absent (left) or a dict
(right), then
`task.assignee = assignee_data.get("displayName") if assignee_data else UNASSIGNED`.
The result is `Option String` because `dict.get` can produce Python `None`. -/
def resolveAssignee : Option RawAssignee → Option String
  | some d => if d.truthy then d.get "displayName" else some UNASSIGNED
  | none => some UNASSIGNED

/-- Embeds `task.is_assigned = bool(assignee_data)`. -/
def isAssigned : Option RawAssignee → Bool
  | some d => d.truthy
  | none => false

/-! ## `format_seconds` (`utils.py`, lines 10–25) -/

/-- Work-day component: `divmod(seconds, 28800)` quotient. -/
def fsWd (seconds : ℕ) : ℕ := seconds / 28800

/-- Hour component: quotient of the first `divmod` remainder by 3600. -/
def fsH (seconds : ℕ) : ℕ := seconds % 28800 / 3600

/-- Minute component. -/
def fsM (seconds : ℕ) : ℕ := seconds % 28800 % 3600 / 60

/-- Second component: final `divmod` remainder. -/
def fsS (seconds : ℕ) : ℕ := seconds % 28800 % 3600 % 60

/-- The day/hour/minute entries of the `parts` list built by
`format_seconds`: each nonzero component is appended with its unit suffix. -/
def fsPartsDHM (seconds : ℕ) : List String :=
  (if fsWd seconds > 0 then [toString (fsWd seconds) ++ "d"] else []) ++
  (if fsH seconds > 0 then [toString (fsH seconds) ++ "h"] else []) ++
  (if fsM seconds > 0 then [toString (fsM seconds) ++ "m"] else [])

/-- The full `parts` list of `format_seconds`: the seconds part is appended
when it is nonzero or when the list would otherwise be empty
(`if seconds > 0 or not parts`). -/
def fsParts (seconds : ℕ) : List String :=
  if fsS seconds > 0 ∨ fsPartsDHM seconds = [] then
    fsPartsDHM seconds ++ [toString (fsS seconds) ++ "s"]
  else
    fsPartsDHM seconds

/-- Function `format_seconds` from `utils.py`: `" ".join(parts)`. -/
def format_seconds (seconds : ℕ) : String :=
  String.intercalate " " (fsParts seconds)

/-! ## `highlight_exceeding` (`utils.py`, lines 28–34) -/

/-- The fields of a classified `Task` that the aggregation claims need.
`hle` is the estimate (Python float → `ℚ`), `time_spent` the logged seconds
(Python int, non-negative in the source data → `ℕ`). -/
structure Task where
  ratio_type : RatioType
  hle : ℚ
  is_assigned : Bool
  fix_version : Option String
  time_spent : ℕ
deriving DecidableEq, Repr

/-- Embeds `highlight_exceeding`: returns `"red"` when
`time_spent > (hle * 8 * 3600) * 3`, `"yellow"` when it only exceeds
`(hle * 8 * 3600) * 2`, else `None`. -/
def highlight_exceeding (t : Task) : Option String :=
  if (t.time_spent : ℚ) > t.hle * 8 * 3600 * 3 then some "red"
  else if (t.time_spent : ℚ) > t.hle * 8 * 3600 * 2 then some "yellow"
  else none

/-! ## Percentage computation in `print_general_info` (`utils.py`,
lines 37–116) -/

/-- Structure `MemberPlan` from `models.py`: work days, velocity, task list, running
estimate total. -/
structure MemberPlan where
  wd : ℚ
  vel : ℚ
  tasks : List Task
  total_hle : ℚ

/-- Python float division: raises `ZeroDivisionError` on a zero denominator,
embedded as `Except.error ()`. -/
def pyDiv (a b : ℚ) : Except Unit ℚ :=
  if b = 0 then .error () else .ok (a / b)

/-- The `hle_all` accumulation loop of `print_general_info`:
`hle_all[task.ratio_type] += task.hle` over every task of every plan. -/
def hleAll (plans : List MemberPlan) (c : RatioType) : ℚ :=
  plans.foldl (fun acc p =>
    p.tasks.foldl (fun a t => if t.ratio_type = c then a + t.hle else a) acc) 0

/-- The `hle_assigned` accumulation: only tasks with `is_assigned`. -/
def hleAssigned (plans : List MemberPlan) (c : RatioType) : ℚ :=
  plans.foldl (fun acc p =>
    p.tasks.foldl (fun a t =>
      if t.ratio_type = c ∧ t.is_assigned then a + t.hle else a) acc) 0

/-- Embeds `total = hle_all["Maintenance"] + hle_all["Bug"] + hle_all["Product"]`. -/
def totalAll (plans : List MemberPlan) : ℚ :=
  hleAll plans .Maintenance + hleAll plans .Bug + hleAll plans .Product

/-- Embeds `total_assigned`, over the assigned view. -/
def totalAssigned (plans : List MemberPlan) : ℚ :=
  hleAssigned plans .Maintenance + hleAssigned plans .Bug +
    hleAssigned plans .Product

/-- The all-view percentage figure `hle_all[c] / total * 100` rendered by
`print_general_info` (division happens before the multiplication). -/
def pctAll (plans : List MemberPlan) (c : RatioType) : Except Unit ℚ :=
  (pyDiv (hleAll plans c) (totalAll plans)).map (· * 100)

/-- The assigned-view percentage figure `hle_assigned[c] / total_assigned * 100`. -/
def pctAssigned (plans : List MemberPlan) (c : RatioType) : Except Unit ℚ :=
  (pyDiv (hleAssigned plans c) (totalAssigned plans)).map (· * 100)

/-! ## Release bucketing in the `ratio` command (`cli.py`, lines 156–293) -/

/-- Embeds `fix_version = task.fix_version or "No Fix Version"`: Python `or` falls
through on any falsy value (`None` or the empty string). -/
def bucketKey (t : Task) : String :=
  match t.fix_version with
  | some s => if s = "" then "No Fix Version" else s
  | none => "No Fix Version"

/-- One entry of the `tasks` defaultdict in the `ratio` command: the
per-category estimate dict, the per-category time dict, and the task list. -/
structure Bucket where
  ratio : RatioType → ℚ
  time : RatioType → ℕ
  tasks : List Task

/-- The defaultdict's default entry: all sums 0, no tasks. -/
def emptyBucket : Bucket := ⟨fun _ => 0, fun _ => 0, []⟩

/-- One loop iteration of the `ratio` command for a task in its bucket:
`tasks[fv]["tasks"].append(task)`, `tasks[fv]["ratio"][rt] += task.hle`,
`tasks[fv]["time"][rt] += task.time_spent`. -/
def addToBucket (b : Bucket) (t : Task) : Bucket where
  ratio := fun c => if c = t.ratio_type then b.ratio c + t.hle else b.ratio c
  time := fun c => if c = t.ratio_type then b.time c + t.time_spent else b.time c
  tasks := b.tasks ++ [t]

/-- One loop iteration over the whole defaultdict (a total map from keys to
buckets, matching defaultdict semantics). -/
def ratioStep (m : String → Bucket) (t : Task) : String → Bucket :=
  fun k => if k = bucketKey t then addToBucket (m k) t else m k

/-- The fully accumulated defaultdict after the fetch loop. -/
def ratioDict (tasks : List Task) : String → Bucket :=
  tasks.foldl ratioStep (fun _ => emptyBucket)

/-- Embeds `maintenance = data["ratio"]["Maintenance"]`. -/
def maintenance_estimate (ts : List Task) (k : String) : ℚ :=
  (ratioDict ts k).ratio .Maintenance

/-- Embeds `product = data["ratio"]["Product"] + data["ratio"]["Bug"]`. -/
def product_estimate (ts : List Task) (k : String) : ℚ :=
  (ratioDict ts k).ratio .Product + (ratioDict ts k).ratio .Bug

/-- Embeds `excluded = data["ratio"]["Excluded"]`. -/
def excluded_estimate (ts : List Task) (k : String) : ℚ :=
  (ratioDict ts k).ratio .Excluded

/-- Embeds `time_maintenance = data["time"]["Maintenance"]`. -/
def maintenance_time (ts : List Task) (k : String) : ℕ :=
  (ratioDict ts k).time .Maintenance

/-- Embeds `time_product = data["time"]["Product"] + data["time"]["Bug"]`. -/
def product_time (ts : List Task) (k : String) : ℕ :=
  (ratioDict ts k).time .Product + (ratioDict ts k).time .Bug

/-- The accumulated `data["time"]["Excluded"]` entry of a bucket. -/
def excluded_time (ts : List Task) (k : String) : ℕ :=
  (ratioDict ts k).time .Excluded

/-- Embeds `total = maintenance + product` for one bucket. -/
def bucket_total (ts : List Task) (k : String) : ℚ :=
  maintenance_estimate ts k + product_estimate ts k

/-- The bucket percentage `maintenance / total * 100` from the
`maintenance_str` f-string. -/
def bucket_maintenance_pct (ts : List Task) (k : String) : Except Unit ℚ :=
  (pyDiv (maintenance_estimate ts k) (bucket_total ts k)).map (· * 100)

/-- Embeds `time_total = time_maintenance + time_product` for one bucket. -/
def bucket_time_total (ts : List Task) (k : String) : ℕ :=
  maintenance_time ts k + product_time ts k

/-- The bucket time percentage `time_maintenance / time_total * 100`. -/
def bucket_time_pct (ts : List Task) (k : String) : Except Unit ℚ :=
  (pyDiv (maintenance_time ts k : ℚ) (bucket_time_total ts k : ℚ)).map (· * 100)

/-- The bucket keys in first-occurrence order (the defaultdict's key set;
the code sorts them, which does not affect the grand-total sums). -/
def bucketKeys (ts : List Task) : List String :=
  (ts.map bucketKey).eraseDups

/-- Embeds `total_maintenance`, accumulated over all buckets. -/
def total_maintenance (ts : List Task) : ℚ :=
  (bucketKeys ts).foldl (fun a k => a + maintenance_estimate ts k) 0

/-- Embeds `total_product`, accumulated over all buckets. -/
def total_product (ts : List Task) : ℚ :=
  (bucketKeys ts).foldl (fun a k => a + product_estimate ts k) 0

/-- Embeds `_total = total_maintenance + total_product`. -/
def grand_total (ts : List Task) : ℚ :=
  total_maintenance ts + total_product ts

/-- The grand-total percentage `total_maintenance / _total * 100`. -/
def grand_maintenance_pct (ts : List Task) : Except Unit ℚ :=
  (pyDiv (total_maintenance ts) (grand_total ts)).map (· * 100)

/-- Embeds `time_total_maintenance` over all buckets. -/
def time_total_maintenance (ts : List Task) : ℕ :=
  (bucketKeys ts).foldl (fun a k => a + maintenance_time ts k) 0

/-- Embeds `time_total_product` over all buckets. -/
def time_total_product (ts : List Task) : ℕ :=
  (bucketKeys ts).foldl (fun a k => a + product_time ts k) 0

/-- The grand-total time percentage
`time_total_maintenance / _time_total * 100`. -/
def grand_time_pct (ts : List Task) : Except Unit ℚ :=
  (pyDiv (time_total_maintenance ts : ℚ)
    ((time_total_maintenance ts + time_total_product ts : ℕ) : ℚ)).map (· * 100)

/-- Spec-side description for C5: the estimate sum of the tasks of one
category landing in one bucket. -/
def categoryHleSum (ts : List Task) (k : String) (c : RatioType) : ℚ :=
  ((ts.filter fun t => decide (bucketKey t = k ∧ t.ratio_type = c)).map
    Task.hle).sum

/-- Spec-side description for C5: the time-spent sum of the tasks of one
category landing in one bucket. -/
def categoryTimeSum (ts : List Task) (k : String) (c : RatioType) : ℕ :=
  ((ts.filter fun t => decide (bucketKey t = k ∧ t.ratio_type = c)).map
    Task.time_spent).sum

/-! ## Team configuration (`team_config.py`) -/

/-- Model of Python `str.strip()`: drop leading and trailing whitespace. -/
def pyStrip (s : String) : String :=
  String.mk (((s.data.dropWhile pyIsSpace).reverse.dropWhile pyIsSpace).reverse)

/-- A validated `TeamMember` (`team_config.py`, lines 7–44). -/
structure TeamMember where
  name : String
  nickname : String
  wd : ℚ
  vel : ℚ
deriving DecidableEq, Repr

/-- A validated `TeamConfig` (`team_config.py`, lines 47–54). -/
structure TeamConfig where
  members : List TeamMember
deriving DecidableEq, Repr

/-- Embeds the pydantic validation of one `TeamMember`: `min_length=1` on
`name` and `nickname`, `gt=0, le=10` on `wd`, `gt=0` on `vel`, and the two
field validators rejecting values that are empty after stripping (the
validators return the stripped value). -/
def validate_member (name nickname : String) (wd vel : ℚ) :
    Except Unit TeamMember :=
  if 1 ≤ name.length ∧ 1 ≤ nickname.length ∧ 0 < wd ∧ wd ≤ 10 ∧ 0 < vel ∧
      pyStrip name ≠ "" ∧ pyStrip nickname ≠ "" then
    .ok ⟨pyStrip name, pyStrip nickname, wd, vel⟩
  else
    .error ()

/-- Validation of the member list: pydantic validates each entry and fails
on the first invalid one. -/
def validate_members :
    List (String × String × ℚ × ℚ) → Except Unit (List TeamMember)
  | [] => .ok []
  | r :: rs =>
    match validate_member r.1 r.2.1 r.2.2.1 r.2.2.2, validate_members rs with
    | .ok m, .ok ms => .ok (m :: ms)
    | _, _ => .error ()

/-- Embeds `load_team_config` after YAML parsing: construct `TeamConfig`
from the raw member tuples, which pydantic-validates every member and the
`min_length=1` constraint on the member list; any failure is the load-time
validation error. -/
def load_team_config (raw : List (String × String × ℚ × ℚ)) :
    Except Unit TeamConfig :=
  match validate_members raw with
  | .ok ms => if ms.length < 1 then .error () else .ok ⟨ms⟩
  | .error e => .error e

/-- Python dict insertion on an association list with unique keys: replace
in place when the key exists, else append. -/
def pyInsert {α : Type} (d : List (String × α)) (k : String) (v : α) :
    List (String × α) :=
  if (d.lookup k).isSome then
    d.map (fun p => if p.1 = k then (k, v) else p)
  else
    d ++ [(k, v)]

/-- Embeds `TeamConfig.to_member_dict`: `{member.name: (member.wd, member.vel)}`. -/
def to_member_dict (cfg : TeamConfig) : List (String × (ℚ × ℚ)) :=
  cfg.members.foldl (fun d m => pyInsert d m.name (m.wd, m.vel)) []

/-- Embeds `TeamConfig.to_nickname_dict`:
`{member.nickname: (member.name, member.wd, member.vel)}`. -/
def to_nickname_dict (cfg : TeamConfig) : List (String × (String × ℚ × ℚ)) :=
  cfg.members.foldl (fun d m => pyInsert d m.nickname (m.name, m.wd, m.vel)) []

/-- Embeds `TeamConfig.apply_overrides`: start from `to_member_dict`; for each
override whose nickname is a key of `to_nickname_dict`, replace that
member's pair under their full name; unknown nicknames are skipped. -/
def apply_overrides (cfg : TeamConfig)
    (overrides : List (String × (ℚ × ℚ))) : List (String × (ℚ × ℚ)) :=
  overrides.foldl (fun tm ov =>
    match (to_nickname_dict cfg).lookup ov.1 with
    | some fwv => pyInsert tm fwv.1 ov.2
    | none => tm) (to_member_dict cfg)

/-! ## Estimate / priority-score normalization (`models.py`, lines 47–49) -/

/-- A raw Jira custom-field value: JSON null, a number, or a string. -/
inductive PyVal where
  | none
  | num (q : ℚ)
  | str (s : String)
deriving DecidableEq, Repr

/-- Python truthiness of a field value: `None`, `0` and `""` are falsy. -/
def PyVal.truthy : PyVal → Bool
  | .none => false
  | .num q => decide (q ≠ 0)
  | .str s => decide (s ≠ "")

/-- Value of a digit run, most significant first. -/
def digitsToNat (cs : List Char) : ℕ :=
  cs.foldl (fun a c => a * 10 + (c.toNat - 48)) 0

/-- Model of Python `float(str)` restricted to plain decimal literals
(optional sign, digits, at most one dot); every other string raises
`ValueError`, embedded as `Except.error ()`. -/
def pyFloatOfString (s : String) : Except Unit ℚ :=
  let cs := (pyStrip s).data
  let body := match cs with
    | '+' :: rest => rest
    | '-' :: rest => rest
    | _ => cs
  let neg : Bool := match cs with
    | '-' :: _ => true
    | _ => false
  let ip := body.takeWhile (fun c => c != '.')
  match body.dropWhile (fun c => c != '.') with
  | [] =>
    if ip ≠ [] ∧ ip.all Char.isDigit then
      .ok (if neg then -(digitsToNat ip : ℚ) else (digitsToNat ip : ℚ))
    else .error ()
  | _ :: frac =>
    if frac.contains '.' then .error ()
    else if ip = [] ∧ frac = [] then .error ()
    else if ip.all Char.isDigit ∧ frac.all Char.isDigit then
      let mag : ℚ :=
        (digitsToNat ip : ℚ) + (digitsToNat frac : ℚ) / ((10 : ℚ) ^ frac.length)
      .ok (if neg then -mag else mag)
    else .error ()

/-- Model of Python `float(value)`: numbers pass through, strings are
parsed, `None` raises `TypeError`. -/
def pyFloat : PyVal → Except Unit ℚ
  | .num q => .ok q
  | .str s => pyFloatOfString s
  | .none => .error ()

/-- Embeds `task.hle = float(fields.get(CUSTOM_FIELD_HLE, 0) or 0)`:
`fields.get` with default `0`, then Python `or` replaces any falsy value
with `0`, then `float`. -/
def getHle (hleField : Option PyVal) : Except Unit ℚ :=
  let v := hleField.getD (.num 0)
  pyFloat (if v.truthy then v else .num 0)

/-- Model of Python `int()` truncation toward zero on a rational. -/
def pyIntTrunc (q : ℚ) : ℤ :=
  q.num.tdiv (q.den : ℤ)

/-- Model of Python `int(value)`: numbers truncate toward zero, strings are
parsed as integer literals, `None` raises `TypeError`. -/
def pyInt : PyVal → Except Unit ℤ
  | .num q => .ok (pyIntTrunc q)
  | .str s =>
    let cs := (pyStrip s).data
    let body := match cs with
      | '+' :: rest => rest
      | '-' :: rest => rest
      | _ => cs
    let neg : Bool := match cs with
      | '-' :: _ => true
      | _ => false
    if body ≠ [] ∧ body.all Char.isDigit then
      .ok (if neg then -(digitsToNat body : ℤ) else (digitsToNat body : ℤ))
    else .error ()
  | .none => .error ()

/-- Embeds `task.wsjf = int(fields.get(CUSTOM_FIELD_WSJF, 0) or 0)`. -/
def getWsjf (wsjfField : Option PyVal) : Except Unit ℤ :=
  let v := wsjfField.getD (.num 0)
  pyInt (if v.truthy then v else .num 0)

/-! ## Concrete inputs used by the counterexamples and witnesses -/

/-- The concrete input refuting C2: a single plan holding one assigned
`Excluded` task with estimate 3 — every (Maintenance+Bug+Product) sum is 0. -/
def cexPlans : List MemberPlan := [⟨5, 1, [⟨.Excluded, 3, true, none, 0⟩], 3⟩]

/-- The same single `Excluded` task as a release-bucket input (release
`"6.13"`): its bucket's (Maintenance+Product) sums are 0. -/
def cexTasks : List Task := [⟨.Excluded, 3, true, some "6.13", 0⟩]

/-- A plan and a task list with nonzero (Maintenance+Bug+Product) sums, for
the nonzero branches of the C2 witness. -/
def nzPlans : List MemberPlan := [⟨5, 1, [⟨.Maintenance, 1, true, none, 0⟩], 1⟩]

/-- A single-Maintenance-task list for the nonzero bucket branch of the C2
witness. -/
def nzTasks : List Task := [⟨.Maintenance, 1, true, some "6.12", 0⟩]

/-- A two-member team for the C6 witness. -/
def wCfg : TeamConfig :=
  ⟨[⟨"Alice Smith", "alice", 5, 1⟩, ⟨"Bob Jones", "bob", 4, 2⟩]⟩

/-- The decidable per-member validity condition the pydantic model enforces
(C7's spec-side predicate, minus the duplicate-nickname clause). -/
def memberValid (name nickname : String) (wd vel : ℚ) : Prop :=
  1 ≤ name.length ∧ 1 ≤ nickname.length ∧ 0 < wd ∧ wd ≤ 10 ∧ 0 < vel ∧
    pyStrip name ≠ "" ∧ pyStrip nickname ≠ ""

/-- Helper: the accumulated `ratio` entry of a bucket is the filtered
estimate sum, for any starting map. -/
theorem ratioDict_ratio_eq (c : RatioType) (k : String) : ∀ (ts : List Task)
    (m : String → Bucket),
    ((ts.foldl ratioStep m) k).ratio c = (m k).ratio c + categoryHleSum ts k c := by
  intro ts
  induction ts with
  | nil => intro m; simp [categoryHleSum]
  | cons t ts ih =>
      intro m
      simp only [List.foldl_cons]
      rw [ih (ratioStep m t)]
      unfold categoryHleSum ratioStep addToBucket
      by_cases hk : bucketKey t = k
      · subst hk
        by_cases hc : t.ratio_type = c
        · simp [hc, categoryHleSum]
          ring
        · simp [hc, Ne.symm hc, categoryHleSum]
      · simp [hk, Ne.symm hk, categoryHleSum]

/-- Helper: the accumulated `time` entry of a bucket is the filtered
time-spent sum, for any starting map. -/
theorem ratioDict_time_eq (c : RatioType) (k : String) : ∀ (ts : List Task)
    (m : String → Bucket),
    ((ts.foldl ratioStep m) k).time c = (m k).time c + categoryTimeSum ts k c := by
  intro ts
  induction ts with
  | nil => intro m; simp [categoryTimeSum]
  | cons t ts ih =>
      intro m
      simp only [List.foldl_cons]
      rw [ih (ratioStep m t)]
      unfold categoryTimeSum ratioStep addToBucket
      by_cases hk : bucketKey t = k
      · subst hk
        by_cases hc : t.ratio_type = c
        · simp [hc, categoryTimeSum]
          omega
        · simp [hc, Ne.symm hc, categoryTimeSum]
      · simp [hk, Ne.symm hk, categoryTimeSum]

/-! ## Association-list helper lemmas for the team-config theorems -/

/-- Membership in a `pyInsert` result: an original entry or the new pair. -/
theorem mem_pyInsert {α : Type} {d : List (String × α)} {k : String} {v : α}
    {p : String × α} (hp : p ∈ pyInsert d k v) : p ∈ d ∨ p = (k, v) := by
  unfold pyInsert at hp
  split at hp
  · rcases List.mem_map.mp hp with ⟨q, hq, hqe⟩
    by_cases h : q.1 = k
    · right; rw [if_pos h] at hqe; exact hqe.symm
    · left; rw [if_neg h] at hqe; exact hqe ▸ hq
  · rcases List.mem_append.mp hp with h | h
    · exact Or.inl h
    · exact Or.inr (List.mem_singleton.mp h)

/-- A successful lookup's key is among the keys, and conversely. -/
theorem lookup_isSome_iff {α : Type} (d : List (String × α)) (k : String) :
    (d.lookup k).isSome = true ↔ k ∈ d.map Prod.fst := by
  induction d with
  | nil => simp [List.lookup]
  | cons p d ih =>
      obtain ⟨k', v'⟩ := p
      by_cases h : k = k'
      · subst h
        simp [List.lookup]
      · have hb : (k == k') = false := by simp [h]
        constructor
        · intro hs
          have hs' : (List.lookup k d).isSome = true := by
            simpa [List.lookup, hb] using hs
          exact List.mem_cons.mpr (Or.inr (ih.mp hs'))
        · intro hm
          rcases List.mem_cons.mp hm with hc | hc
          · exact absurd hc h
          · simpa [List.lookup, hb] using ih.mpr hc

/-- Lemma: `pyInsert` keeps all existing keys. -/
theorem pyInsert_keys_supset {α : Type} (d : List (String × α)) (k : String)
    (v : α) {k' : String} (h : k' ∈ d.map Prod.fst) :
    k' ∈ (pyInsert d k v).map Prod.fst := by
  unfold pyInsert
  split
  · rcases List.mem_map.mp h with ⟨q, hq, hqe⟩
    refine List.mem_map.mpr
      ⟨if q.1 = k then (k, v) else q, List.mem_map_of_mem _ hq, ?_⟩
    by_cases hqk : q.1 = k
    · rw [if_pos hqk]
      exact hqk.symm.trans hqe
    · rw [if_neg hqk]
      exact hqe
  · rw [List.map_append]
    exact List.mem_append_left _ h

/-- The inserted key is a key of the result. -/
theorem self_mem_pyInsert_keys {α : Type} (d : List (String × α)) (k : String)
    (v : α) : k ∈ (pyInsert d k v).map Prod.fst := by
  unfold pyInsert
  split
  · next h =>
      rcases List.mem_map.mp ((lookup_isSome_iff d k).mp h) with ⟨q, hq, hqe⟩
      exact List.mem_map.mpr
        ⟨(k, v), List.mem_map.mpr ⟨q, hq, by rw [if_pos hqe]⟩, rfl⟩
  · simp

/-- Inserting an existing key leaves the key list unchanged. -/
theorem pyInsert_keys_of_mem {α : Type} {d : List (String × α)} {k : String}
    (v : α) (h : k ∈ d.map Prod.fst) :
    (pyInsert d k v).map Prod.fst = d.map Prod.fst := by
  unfold pyInsert
  rw [if_pos ((lookup_isSome_iff d k).mpr h)]
  rw [List.map_map]
  apply List.map_congr_left
  intro p _
  by_cases hp : p.1 = k
  · simp [hp]
  · simp [hp]

/-- A successful lookup comes from an entry of the list. -/
theorem lookup_eq_some_mem {α : Type} {d : List (String × α)} {k : String}
    {v : α} (h : d.lookup k = some v) : (k, v) ∈ d := by
  induction d with
  | nil => simp [List.lookup] at h
  | cons q d ih =>
      obtain ⟨k', v'⟩ := q
      by_cases hk : k = k'
      · subst hk
        simp [List.lookup] at h
        simp [h]
      · have hb : (k == k') = false := by simp [hk]
        simp only [List.lookup, hb] at h
        exact List.mem_cons_of_mem _ (ih h)

/-- Every entry produced by a `pyInsert` fold is an initial entry or comes
from a processed member. -/
theorem foldl_pyInsert_mem {α : Type} (f : TeamMember → String)
    (g : TeamMember → α) :
    ∀ (l : List TeamMember) (d : List (String × α)) (p : String × α),
      p ∈ l.foldl (fun d m => pyInsert d (f m) (g m)) d →
      p ∈ d ∨ ∃ m ∈ l, p = (f m, g m) := by
  intro l
  induction l with
  | nil => intro d p hp; exact Or.inl hp
  | cons m l ih =>
      intro d p hp
      rcases ih (pyInsert d (f m) (g m)) p hp with h | ⟨m', hm', hp'⟩
      · rcases mem_pyInsert h with h' | h'
        · exact Or.inl h'
        · exact Or.inr ⟨m, List.mem_cons_self m l, h'⟩
      · exact Or.inr ⟨m', List.mem_cons_of_mem _ hm', hp'⟩

/-- A `pyInsert` fold never loses keys. -/
theorem foldl_pyInsert_keys_mono {α : Type} (f : TeamMember → String)
    (g : TeamMember → α) :
    ∀ (l : List TeamMember) (d : List (String × α)) (k : String),
      k ∈ d.map Prod.fst →
      k ∈ (l.foldl (fun d m => pyInsert d (f m) (g m)) d).map Prod.fst := by
  intro l
  induction l with
  | nil => intro d k h; exact h
  | cons m l ih =>
      intro d k h
      exact ih _ k (pyInsert_keys_supset d (f m) (g m) h)

/-- A processed member's key is a key of the `pyInsert` fold result. -/
theorem mem_foldl_pyInsert_keys {α : Type} (f : TeamMember → String)
    (g : TeamMember → α) :
    ∀ (l : List TeamMember) (d : List (String × α)) (m : TeamMember),
      m ∈ l →
      f m ∈ (l.foldl (fun d m => pyInsert d (f m) (g m)) d).map Prod.fst := by
  intro l
  induction l with
  | nil => intro d m hm; simp at hm
  | cons m' l ih =>
      intro d m hm
      rcases List.mem_cons.mp hm with hm | hm
      · subst hm
        exact foldl_pyInsert_keys_mono f g l _ (f m)
          (self_mem_pyInsert_keys d (f m) (g m))
      · exact ih _ m hm

/-- The keys of `to_member_dict` are exactly the configured names. -/
theorem mem_member_dict_keys_iff (cfg : TeamConfig) (k : String) :
    k ∈ (to_member_dict cfg).map Prod.fst ↔
      ∃ m ∈ cfg.members, m.name = k := by
  constructor
  · intro h
    rcases List.mem_map.mp h with ⟨p, hp, hpe⟩
    rcases foldl_pyInsert_mem _ _ cfg.members [] p hp with h' | ⟨m, hm, hp'⟩
    · simp at h'
    · exact ⟨m, hm, by rw [← hpe, hp']⟩
  · rintro ⟨m, hm, rfl⟩
    exact mem_foldl_pyInsert_keys _ _ cfg.members [] m hm

/-- A successful nickname lookup originates in a configured member. -/
theorem nickname_lookup_origin (cfg : TeamConfig) {nick : String}
    {fwv : String × ℚ × ℚ}
    (h : (to_nickname_dict cfg).lookup nick = some fwv) :
    ∃ m ∈ cfg.members, m.nickname = nick ∧ fwv = (m.name, m.wd, m.vel) := by
  rcases foldl_pyInsert_mem _ _ cfg.members [] _ (lookup_eq_some_mem h)
    with h' | ⟨m, hm, hp'⟩
  · simp at h'
  · exact ⟨m, hm, (Prod.mk.injEq _ _ _ _ ▸ hp').1.symm,
      (Prod.mk.injEq _ _ _ _ ▸ hp').2⟩

/-- Looking up a replaced key in the map branch of `pyInsert`. -/
theorem lookup_map_replace {α : Type} (k : String) (v : α) :
    ∀ d : List (String × α),
      ((d.map (fun p => if p.1 = k then (k, v) else p)).lookup k) =
        if (d.lookup k).isSome then some v else none := by
  intro d
  induction d with
  | nil => simp [List.lookup]
  | cons q d ih =>
      obtain ⟨k', v'⟩ := q
      simp only [List.map_cons]
      by_cases hq : k' = k
      · rw [show (if (k', v').1 = k then (k, v) else (k', v')) = (k, v)
          from if_pos hq]
        have hb : (k == k') = true := by simp [hq.symm]
        simp [List.lookup, hb]
      · rw [show (if (k', v').1 = k then (k, v) else (k', v')) = (k', v')
          from if_neg hq]
        have hb : (k == k') = false := by
          simp [show ¬ k = k' from fun h => hq h.symm]
        simp only [List.lookup, hb, ih]

/-- Appending a fresh binding and looking it up. -/
theorem lookup_append_right {α : Type} (k : String) (v : α) :
    ∀ d : List (String × α), (d.lookup k).isSome = false →
      ((d ++ [(k, v)]).lookup k) = some v := by
  intro d
  induction d with
  | nil => simp [List.lookup]
  | cons q d ih =>
      obtain ⟨k', v'⟩ := q
      intro h
      by_cases hk : k = k'
      · subst hk
        have hv : List.lookup k ((k, v') :: d) = some v' := by
          simp [List.lookup]
        rw [hv] at h
        simp at h
      · have hb : (k == k') = false := by simp [hk]
        simp only [List.lookup, hb] at h
        simp only [List.cons_append, List.lookup, hb]
        exact ih h

/-- Looking up the inserted key yields the inserted value. -/
theorem lookup_pyInsert_self {α : Type} (d : List (String × α)) (k : String)
    (v : α) : (pyInsert d k v).lookup k = some v := by
  unfold pyInsert
  split
  · next h => rw [lookup_map_replace, if_pos h]
  · next h => exact lookup_append_right k v d (by rwa [Bool.not_eq_true] at h)

/-! ## Theorems for the classifier and the two utils functions -/

/-- Claim C1: `ratio_type` is assigned by first-match precedence: a
`"RatioExcluded"` or `"Bughunting"` label forces `Excluded` regardless of
other labels and of the ticket type; otherwise a `"Maintenance"` or
`"DevOps"` label forces `Maintenance`; otherwise type `"Bug"` gives `Bug`;
otherwise the result is `Product`. -/
theorem ratio_classification_precedence (labels : List String) (ty : String) :
    (("RatioExcluded" ∈ labels ∨ "Bughunting" ∈ labels) →
      ratioType labels ty = .Excluded) ∧
    (¬("RatioExcluded" ∈ labels ∨ "Bughunting" ∈ labels) →
      ("Maintenance" ∈ labels ∨ "DevOps" ∈ labels) →
      ratioType labels ty = .Maintenance) ∧
    (¬("RatioExcluded" ∈ labels ∨ "Bughunting" ∈ labels) →
      ¬("Maintenance" ∈ labels ∨ "DevOps" ∈ labels) →
      ty = "Bug" → ratioType labels ty = .Bug) ∧
    (¬("RatioExcluded" ∈ labels ∨ "Bughunting" ∈ labels) →
      ¬("Maintenance" ∈ labels ∨ "DevOps" ∈ labels) →
      ty ≠ "Bug" → ratioType labels ty = .Product) := by
  unfold ratioType
  simp only [List.contains, List.elem_eq_mem, Bool.or_eq_true, decide_eq_true_eq,
    beq_iff_eq]
  refine ⟨fun h => by simp [h], fun h1 h2 => ?_, fun h1 h2 h3 => ?_,
    fun h1 h2 h3 => ?_⟩ <;> simp [h1, h2, *]

/-- Witness for C1: the precedence theorem applied at concrete inputs,
including the precedence edge case of a ticket carrying both an excluding
and a maintenance label. -/
theorem ratio_classification_precedence_witness :
    ratioType ["Maintenance", "RatioExcluded"] "Bug" = .Excluded ∧
    ratioType ["DevOps"] "Bug" = .Maintenance ∧
    ratioType [] "Bug" = .Bug ∧
    ratioType [] "Story" = .Product :=
  ⟨(ratio_classification_precedence ["Maintenance", "RatioExcluded"] "Bug").1
      (Or.inl (by decide)),
   (ratio_classification_precedence ["DevOps"] "Bug").2.1 (by decide)
      (Or.inr (by decide)),
   (ratio_classification_precedence [] "Bug").2.2.1 (by decide) (by decide) rfl,
   (ratio_classification_precedence [] "Story").2.2.2 (by decide) (by decide)
      (by decide)⟩

/-- Claim C4 counterexample: The claim says every non-empty input yields a
returned token; on the whitespace-only input `" "` the code instead raises
`IndexError` (`version_name.split()[0]` on an empty list). -/
theorem extract_whitespace_only_raises :
    extract_version_number " " = .error () := rfl

/-- Claim C4 amended: The extractor returns `None` on empty input; on
non-empty whitespace-only input (no whitespace-delimited token) it raises
`IndexError`; otherwise it keeps the first whitespace-delimited token, splits
it on `"."`, and returns `"{p0}.{p1}"` when at least two parts exist, else
the token unchanged; `extract("6.12.0 (16. 9. - 29. 9)") = "6.12"`,
`extract("") = None`, `extract("7") = "7"`. -/
theorem extract_version_behavior (s : String) :
    (s = "" → extract_version_number s = .ok none) ∧
    (s ≠ "" → pySplitWs s = [] → extract_version_number s = .error ()) ∧
    (∀ t rest, s ≠ "" → pySplitWs s = t :: rest →
      ((∃ p0 p1 ps, pySplitDot t = p0 :: p1 :: ps ∧
          extract_version_number s = .ok (some (p0 ++ "." ++ p1))) ∨
        ((pySplitDot t).length < 2 ∧
          extract_version_number s = .ok (some t)))) ∧
    extract_version_number "6.12.0 (16. 9. - 29. 9)" = .ok (some "6.12") ∧
    extract_version_number "" = .ok none ∧
    extract_version_number "7" = .ok (some "7") := by
  refine ⟨fun h => by subst h; rfl, fun h1 h2 => ?_, fun t rest h1 h2 => ?_,
    rfl, rfl, rfl⟩
  · simp [extract_version_number, beq_iff_eq, h1, h2]
  · cases h3 : pySplitDot t with
    | nil =>
        right
        constructor
        · simp [h3]
        · simp [extract_version_number, beq_iff_eq, h1, h2, h3]
    | cons p0 ps =>
        cases ps with
        | nil =>
            right
            constructor
            · simp [h3]
            · simp [extract_version_number, beq_iff_eq, h1, h2, h3]
        | cons p1 ps' =>
            left
            refine ⟨p0, p1, ps', rfl, ?_⟩
            simp [extract_version_number, beq_iff_eq, h1, h2, h3]

/-- Witness for the amended C4: the general clauses applied at `""`, `" "`
and `"6.12.0 x"` respectively. -/
theorem extract_version_behavior_witness :
    extract_version_number "" = .ok none ∧
    extract_version_number " " = .error () ∧
    extract_version_number "6.12.0 x" = .ok (some "6.12") := by
  refine ⟨(extract_version_behavior "").1 rfl,
    (extract_version_behavior " ").2.1 (by decide) rfl, ?_⟩
  have h := (extract_version_behavior "6.12.0 x").2.2.1 "6.12.0" ["x"]
    (by decide) rfl
  rcases h with ⟨p0, p1, ps, hsplit, hval⟩ | ⟨hlen, _⟩
  · have h612 : pySplitDot "6.12.0" = ["6", "12", "0"] := rfl
    rw [h612] at hsplit
    injection hsplit with h0 htl
    injection htl with h1 _
    rw [← h0, ← h1] at hval
    exact hval
  · have h612 : pySplitDot "6.12.0" = ["6", "12", "0"] := rfl
    rw [h612] at hlen
    simp at hlen

/-- Claim C3: A record with no assignee object resolves to the sentinel
`"Unassigned"` with `is_assigned = false`; a record whose assignee object has
a non-empty display name resolves to that display name with
`is_assigned = true`, independent of the string value. -/
theorem assignee_resolution (a : Option RawAssignee) :
    (a = none → resolveAssignee a = some UNASSIGNED ∧ isAssigned a = false) ∧
    (∀ d name, a = some d → d.get "displayName" = some name → name ≠ "" →
      resolveAssignee a = some name ∧ isAssigned a = true) := by
  constructor
  · intro h; subst h; exact ⟨rfl, rfl⟩
  · intro d name ha hget hne
    subst ha
    have htruthy : d.truthy = true := by
      unfold RawAssignee.get at hget
      unfold RawAssignee.truthy
      cases hd : d.entries with
      | nil => rw [hd] at hget; simp [List.lookup] at hget
      | cons x xs => simp [hd]
    exact ⟨by simp [resolveAssignee, htruthy, hget],
      by simp [isAssigned, htruthy]⟩

/-- Witness for C3: the sentinel-collision edge case — a real user literally
named `"Unassigned"` still gets `is_assigned = true`, and an absent assignee
gets the sentinel with `is_assigned = false`. -/
theorem assignee_resolution_witness :
    (resolveAssignee none = some UNASSIGNED ∧ isAssigned none = false) ∧
    (resolveAssignee (some ⟨[("displayName", some "Unassigned")]⟩) =
        some "Unassigned" ∧
      isAssigned (some ⟨[("displayName", some "Unassigned")]⟩) = true) :=
  ⟨(assignee_resolution none).1 rfl,
   (assignee_resolution (some ⟨[("displayName", some "Unassigned")]⟩)).2
      ⟨[("displayName", some "Unassigned")]⟩ "Unassigned" rfl rfl (by decide)⟩

/-- Claim C9: `highlight_exceeding` returns `"red"` iff `time_spent` exceeds
three times `hle * 8 * 3600`, `"yellow"` iff it exceeds twice but not three
times that conversion, and no highlight otherwise; a task with estimate 0 and
positive `time_spent` is always `"red"`. -/
theorem highlight_exceeding_spec (t : Task) :
    (highlight_exceeding t = some "red" ↔
      (t.time_spent : ℚ) > t.hle * 8 * 3600 * 3) ∧
    (highlight_exceeding t = some "yellow" ↔
      ((t.time_spent : ℚ) > t.hle * 8 * 3600 * 2 ∧
        ¬ (t.time_spent : ℚ) > t.hle * 8 * 3600 * 3)) ∧
    (highlight_exceeding t = none ↔
      (¬ (t.time_spent : ℚ) > t.hle * 8 * 3600 * 2 ∧
        ¬ (t.time_spent : ℚ) > t.hle * 8 * 3600 * 3)) ∧
    (t.hle = 0 → 0 < t.time_spent → highlight_exceeding t = some "red") := by
  unfold highlight_exceeding
  refine ⟨?_, ?_, ?_, fun h0 hpos => ?_⟩
  · split <;> simp_all
  · split
    · simp_all
    · split <;> simp_all
  · split
    · simp_all
    · split <;> simp_all
  · have : (0 : ℚ) < t.time_spent := by exact_mod_cast hpos
    rw [h0]
    simp only [zero_mul]
    rw [if_pos (by linarith)]

/-- Witness for C9: a task with estimate 0 and 1 second logged is
highlighted red; the iff characterisations evaluated at the same task. -/
theorem highlight_exceeding_spec_witness :
    highlight_exceeding ⟨.Product, 0, true, none, 1⟩ = some "red" :=
  (highlight_exceeding_spec ⟨.Product, 0, true, none, 1⟩).2.2.2 rfl (by decide)

/-- Helper: the accumulator length never shrinks along
`String.intercalate.go`. -/
theorem intercalate_go_length_le (s : String) (xs : List String) :
    ∀ acc : String, acc.length ≤ (String.intercalate.go acc s xs).length := by
  induction xs with
  | nil => intro acc; exact Nat.le_refl _
  | cons a as ih =>
      intro acc
      have h1 : acc.length ≤ (acc ++ s ++ a).length := by
        simp only [String.length_append]
        omega
      exact Nat.le_trans h1 (ih (acc ++ s ++ a))

/-- Helper: joining a nonempty list of nonempty strings is nonempty. -/
theorem intercalate_length_pos (sep : String) (l : List String) (hne : l ≠ [])
    (hall : ∀ p ∈ l, 0 < p.length) :
    0 < (String.intercalate sep l).length := by
  match l, hne with
  | a :: as, _ =>
      have ha : 0 < a.length := hall a (by simp)
      have hgo := intercalate_go_length_le sep as a
      show 0 < (String.intercalate.go a sep as).length
      omega

/-- Helper: every entry of the day/hour/minute parts list is nonempty. -/
theorem fsPartsDHM_entries_ne_empty (n : ℕ) :
    ∀ p ∈ fsPartsDHM n, 0 < p.length := by
  intro p hp
  simp only [fsPartsDHM, List.mem_append] at hp
  rcases hp with (hp | hp) | hp <;>
    · split at hp <;> simp_all [String.length_append]
      all_goals exact Or.inr (by decide)

/-- Helper: every entry of the full parts list is nonempty. -/
theorem fsParts_entries_ne_empty (n : ℕ) :
    ∀ p ∈ fsParts n, 0 < p.length := by
  intro p hp
  unfold fsParts at hp
  split at hp
  · rcases List.mem_append.mp hp with h | h
    · exact fsPartsDHM_entries_ne_empty n p h
    · simp only [List.mem_singleton] at h
      subst h
      simp only [String.length_append]
      have : 0 < "s".length := by decide
      omega
  · exact fsPartsDHM_entries_ne_empty n p hp

/-- Helper: the parts list is never empty. -/
theorem fsParts_ne_nil (n : ℕ) : fsParts n ≠ [] := by
  unfold fsParts
  split
  · simp
  · next h =>
      push_neg at h
      exact h.2

/-- Claim C10: `format_seconds` decomposes its input exactly into work-days
(28800 s), hours, minutes, seconds (the weighted component sum equals the
input, with hours < 8, minutes < 60, seconds < 60), includes a component in
the rendered parts exactly when it is nonzero (the seconds part also when all
components are zero), renders `"0s"` at 0, and never returns `""`. -/
theorem format_seconds_spec (n : ℕ) :
    28800 * fsWd n + 3600 * fsH n + 60 * fsM n + fsS n = n ∧
    fsH n < 8 ∧ fsM n < 60 ∧ fsS n < 60 ∧
    (fsParts n).length =
      ((if 0 < fsWd n then 1 else 0) + (if 0 < fsH n then 1 else 0) +
        (if 0 < fsM n then 1 else 0) +
        (if 0 < fsS n ∨ (fsWd n = 0 ∧ fsH n = 0 ∧ fsM n = 0) then 1 else 0)) ∧
    format_seconds 0 = "0s" ∧
    format_seconds n ≠ "" := by
  refine ⟨?_, ?_, ?_, ?_, ?_, ?_, ?_⟩
  · unfold fsWd fsH fsM fsS; omega
  · unfold fsH; omega
  · unfold fsM; omega
  · unfold fsS; omega
  · unfold fsParts fsPartsDHM
    rcases Nat.eq_zero_or_pos (fsWd n) with h1 | h1 <;>
      rcases Nat.eq_zero_or_pos (fsH n) with h2 | h2 <;>
      rcases Nat.eq_zero_or_pos (fsM n) with h3 | h3 <;>
      rcases Nat.eq_zero_or_pos (fsS n) with h4 | h4 <;>
      simp_all [Nat.pos_iff_ne_zero]
  · decide
  · intro heq
    have hpos := intercalate_length_pos " " (fsParts n) (fsParts_ne_nil n)
      (fsParts_entries_ne_empty n)
    rw [show String.intercalate " " (fsParts n) = format_seconds n from rfl,
      heq] at hpos
    simp at hpos

/-- Claim C5: The release aggregator groups null-release tasks under
`"No Fix Version"`; per bucket, `maintenance_estimate` is the Maintenance
sum, `product_estimate` merges the Product and Bug sums, and
`excluded_estimate` is the Excluded sum, with the same three sums
accumulated for time-spent. -/
theorem release_bucket_sums (ts : List Task) (k : String) :
    (∀ t ∈ ts, t.fix_version = none → bucketKey t = "No Fix Version") ∧
    maintenance_estimate ts k = categoryHleSum ts k .Maintenance ∧
    product_estimate ts k =
      categoryHleSum ts k .Product + categoryHleSum ts k .Bug ∧
    excluded_estimate ts k = categoryHleSum ts k .Excluded ∧
    maintenance_time ts k = categoryTimeSum ts k .Maintenance ∧
    product_time ts k =
      categoryTimeSum ts k .Product + categoryTimeSum ts k .Bug ∧
    excluded_time ts k = categoryTimeSum ts k .Excluded := by
  refine ⟨fun t _ h => by simp [bucketKey, h], ?_, ?_, ?_, ?_, ?_, ?_⟩ <;>
    simp [maintenance_estimate, product_estimate, excluded_estimate,
      maintenance_time, product_time, excluded_time, ratioDict,
      ratioDict_ratio_eq, ratioDict_time_eq, emptyBucket]

/-- Witness for C5: the spec's end-to-end scenario — tasks
(Maintenance, 2.0, "6.12"), (Bug, 1.0, "6.12"), (Excluded, 3.0, "6.13") give
bucket "6.12" maintenance 2 and product 1 (Bug merged), bucket "6.13"
excluded 3; and a null-release task lands in "No Fix Version". -/
theorem release_bucket_sums_witness :
    maintenance_estimate
      [⟨.Maintenance, 2, true, some "6.12", 0⟩, ⟨.Bug, 1, true, some "6.12", 0⟩,
        ⟨.Excluded, 3, true, some "6.13", 0⟩] "6.12" = 2 ∧
    product_estimate
      [⟨.Maintenance, 2, true, some "6.12", 0⟩, ⟨.Bug, 1, true, some "6.12", 0⟩,
        ⟨.Excluded, 3, true, some "6.13", 0⟩] "6.12" = 1 ∧
    excluded_estimate
      [⟨.Maintenance, 2, true, some "6.12", 0⟩, ⟨.Bug, 1, true, some "6.12", 0⟩,
        ⟨.Excluded, 3, true, some "6.13", 0⟩] "6.13" = 3 ∧
    bucketKey ⟨.Product, 1, true, none, 0⟩ = "No Fix Version" := by
  have h12 := release_bucket_sums
    [⟨.Maintenance, 2, true, some "6.12", 0⟩, ⟨.Bug, 1, true, some "6.12", 0⟩,
      ⟨.Excluded, 3, true, some "6.13", 0⟩] "6.12"
  have h13 := release_bucket_sums
    [⟨.Maintenance, 2, true, some "6.12", 0⟩, ⟨.Bug, 1, true, some "6.12", 0⟩,
      ⟨.Excluded, 3, true, some "6.13", 0⟩] "6.13"
  have hnone := (release_bucket_sums [⟨.Product, 1, true, none, 0⟩]
    "No Fix Version").1 ⟨.Product, 1, true, none, 0⟩ (by simp) rfl
  refine ⟨?_, ?_, ?_, hnone⟩
  · rw [h12.2.1]
    simp [categoryHleSum, bucketKey, List.filter]
  · rw [h12.2.2.1]
    simp [categoryHleSum, bucketKey, List.filter]
  · rw [h13.2.2.2.1]
    simp [categoryHleSum, bucketKey, List.filter]

/-- Claim C2 counterexample: On a task collection whose
(Maintenance+Bug+Product) sum is 0, every percentage figure raises
`ZeroDivisionError` (the code divides with no guard): the assigned and all
views of `print_general_info`, a release bucket of `ratio` (estimate and
time), and the grand totals. -/
theorem percentage_zero_total_raises :
    totalAssigned cexPlans = 0 ∧ totalAll cexPlans = 0 ∧
    pctAssigned cexPlans .Maintenance = .error () ∧
    pctAll cexPlans .Maintenance = .error () ∧
    bucket_total cexTasks "6.13" = 0 ∧
    bucket_maintenance_pct cexTasks "6.13" = .error () ∧
    bucket_time_pct cexTasks "6.13" = .error () ∧
    grand_maintenance_pct cexTasks = .error () ∧
    grand_time_pct cexTasks = .error () := by
  have hassigned : totalAssigned cexPlans = 0 := by
    simp [totalAssigned, hleAssigned, cexPlans]
  have hall : totalAll cexPlans = 0 := by
    simp [totalAll, hleAll, cexPlans]
  have hkeys : bucketKeys cexTasks = ["6.13"] := rfl
  have hm0 : maintenance_estimate cexTasks "6.13" = 0 := rfl
  have hpP : (ratioDict cexTasks "6.13").ratio .Product = 0 := rfl
  have hpB : (ratioDict cexTasks "6.13").ratio .Bug = 0 := rfl
  have hp0 : product_estimate cexTasks "6.13" = 0 := by
    rw [product_estimate, hpP, hpB]; norm_num
  have hbt : bucket_total cexTasks "6.13" = 0 := by
    rw [bucket_total, hm0, hp0]; norm_num
  have hgt : grand_total cexTasks = 0 := by
    rw [grand_total, total_maintenance, total_product, hkeys]
    simp [hm0, hp0]
  have htt : bucket_time_total cexTasks "6.13" = 0 := rfl
  have httm : time_total_maintenance cexTasks = 0 := rfl
  have http : time_total_product cexTasks = 0 := rfl
  refine ⟨hassigned, hall, ?_, ?_, hbt, ?_, ?_, ?_, ?_⟩
  · simp [pctAssigned, pyDiv, hassigned, Except.map]
  · simp [pctAll, pyDiv, hall, Except.map]
  · simp [bucket_maintenance_pct, pyDiv, hbt, Except.map]
  · simp [bucket_time_pct, pyDiv, htt, Except.map]
  · simp [grand_maintenance_pct, pyDiv, hgt, Except.map]
  · simp [grand_time_pct, pyDiv, httm, http, Except.map]

/-- Claim C2 amended: Percentage-of-total figures are `category / total * 100`
with Python division semantics: whenever the corresponding view's
(Maintenance+Bug+Product) sum is 0 — assigned view, all view, a release
bucket (estimate or time), or the grand totals — the computation raises
`ZeroDivisionError` (no guard exists in the code); with a nonzero sum it
returns the quotient times 100 without raising. -/
theorem percentage_division_behavior (plans : List MemberPlan)
    (ts : List Task) (k : String) (c : RatioType) :
    (totalAll plans = 0 → pctAll plans c = .error ()) ∧
    (totalAll plans ≠ 0 →
      pctAll plans c = .ok (hleAll plans c / totalAll plans * 100)) ∧
    (totalAssigned plans = 0 → pctAssigned plans c = .error ()) ∧
    (totalAssigned plans ≠ 0 →
      pctAssigned plans c =
        .ok (hleAssigned plans c / totalAssigned plans * 100)) ∧
    (bucket_total ts k = 0 → bucket_maintenance_pct ts k = .error ()) ∧
    (bucket_total ts k ≠ 0 →
      bucket_maintenance_pct ts k =
        .ok (maintenance_estimate ts k / bucket_total ts k * 100)) ∧
    (bucket_time_total ts k = 0 → bucket_time_pct ts k = .error ()) ∧
    (grand_total ts = 0 → grand_maintenance_pct ts = .error ()) ∧
    (time_total_maintenance ts + time_total_product ts = 0 →
      grand_time_pct ts = .error ()) := by
  refine ⟨fun h => ?_, fun h => ?_, fun h => ?_, fun h => ?_, fun h => ?_,
    fun h => ?_, fun h => ?_, fun h => ?_, fun h => ?_⟩
  · simp [pctAll, pyDiv, h, Except.map]
  · simp [pctAll, pyDiv, h, Except.map]
  · simp [pctAssigned, pyDiv, h, Except.map]
  · simp [pctAssigned, pyDiv, h, Except.map]
  · simp [bucket_maintenance_pct, pyDiv, h, Except.map]
  · simp [bucket_maintenance_pct, pyDiv, h, Except.map]
  · simp [bucket_time_pct, pyDiv, h, Except.map]
  · simp [grand_maintenance_pct, pyDiv, h, Except.map]
  · simp [grand_time_pct, pyDiv, h, Except.map]

/-- Witness for the amended C2: every zero-sum view raises at the concrete
counterexample input, and the nonzero branches produce 100 % at a concrete
single-Maintenance-task input. -/
theorem percentage_division_behavior_witness :
    pctAll cexPlans .Maintenance = .error () ∧
    pctAssigned cexPlans .Maintenance = .error () ∧
    bucket_maintenance_pct cexTasks "6.13" = .error () ∧
    bucket_time_pct cexTasks "6.13" = .error () ∧
    grand_maintenance_pct cexTasks = .error () ∧
    grand_time_pct cexTasks = .error () ∧
    pctAll nzPlans .Maintenance = .ok 100 ∧
    pctAssigned nzPlans .Maintenance = .ok 100 ∧
    bucket_maintenance_pct nzTasks "6.12" = .ok 100 := by
  have hz := percentage_division_behavior cexPlans cexTasks "6.13" .Maintenance
  have hnz := percentage_division_behavior nzPlans nzTasks "6.12" .Maintenance
  have hassigned : totalAssigned cexPlans = 0 := by
    simp [totalAssigned, hleAssigned, cexPlans]
  have hall : totalAll cexPlans = 0 := by
    simp [totalAll, hleAll, cexPlans]
  have hm0 : maintenance_estimate cexTasks "6.13" = 0 := rfl
  have hp0 : product_estimate cexTasks "6.13" = 0 := by
    rw [product_estimate,
      show (ratioDict cexTasks "6.13").ratio .Product = 0 from rfl,
      show (ratioDict cexTasks "6.13").ratio .Bug = 0 from rfl]
    norm_num
  have hbt : bucket_total cexTasks "6.13" = 0 := by
    rw [bucket_total, hm0, hp0]; norm_num
  have hgt : grand_total cexTasks = 0 := by
    rw [grand_total, total_maintenance, total_product,
      show bucketKeys cexTasks = ["6.13"] from rfl]
    simp [hm0, hp0]
  have hallNZ : totalAll nzPlans = 1 := by
    simp [totalAll, hleAll, nzPlans]
  have hassignedNZ : totalAssigned nzPlans = 1 := by
    simp [totalAssigned, hleAssigned, nzPlans]
  have hmNZ : maintenance_estimate nzTasks "6.12" = 1 := by
    show (0 : ℚ) + 1 = 1
    norm_num
  have hpNZ : product_estimate nzTasks "6.12" = 0 := by
    rw [product_estimate,
      show (ratioDict nzTasks "6.12").ratio .Product = 0 from rfl,
      show (ratioDict nzTasks "6.12").ratio .Bug = 0 from rfl]
    norm_num
  have hbtNZ : bucket_total nzTasks "6.12" = 1 := by
    rw [bucket_total, hmNZ, hpNZ]; norm_num
  have hhleNZ : hleAll nzPlans .Maintenance = 1 := by
    simp [hleAll, nzPlans]
  have hhleaNZ : hleAssigned nzPlans .Maintenance = 1 := by
    simp [hleAssigned, nzPlans]
  refine ⟨hz.1 hall, hz.2.2.1 hassigned, hz.2.2.2.2.1 hbt,
    hz.2.2.2.2.2.2.1 rfl, hz.2.2.2.2.2.2.2.1 hgt, hz.2.2.2.2.2.2.2.2 rfl,
    ?_, ?_, ?_⟩
  · rw [hnz.2.1 (by rw [hallNZ]; norm_num), hallNZ, hhleNZ]; norm_num
  · rw [hnz.2.2.2.1 (by rw [hassignedNZ]; norm_num), hassignedNZ, hhleaNZ]
    norm_num
  · rw [hnz.2.2.2.2.2.1 (by rw [hbtNZ]; norm_num), hbtNZ, hmNZ]; norm_num

/-- Helper: the override fold preserves the key-set characterisation of the
member dict, whatever overrides are applied. -/
theorem apply_overrides_keys_aux (cfg : TeamConfig) :
    ∀ (ov : List (String × (ℚ × ℚ))) (tm : List (String × (ℚ × ℚ))),
      (∀ k, k ∈ tm.map Prod.fst ↔ ∃ m ∈ cfg.members, m.name = k) →
      ∀ k, k ∈ (ov.foldl (fun tm p =>
          match (to_nickname_dict cfg).lookup p.1 with
          | some fwv => pyInsert tm fwv.1 p.2
          | none => tm) tm).map Prod.fst ↔ ∃ m ∈ cfg.members, m.name = k := by
  intro ov
  induction ov with
  | nil => intro tm h k; exact h k
  | cons p ov ih =>
      intro tm h k
      simp only [List.foldl_cons]
      apply ih
      intro k'
      cases hl : (to_nickname_dict cfg).lookup p.1 with
      | none => exact h k'
      | some fwv =>
          rcases nickname_lookup_origin cfg hl with ⟨m, hm, _, hfwv⟩
          have hname : fwv.1 ∈ tm.map Prod.fst :=
            (h fwv.1).mpr ⟨m, hm, by rw [hfwv]⟩
          rw [pyInsert_keys_of_mem _ hname]
          exact h k'

/-- Helper: overrides whose nicknames all miss the nickname dict are a
no-op on any accumulator. -/
theorem apply_overrides_none_aux (cfg : TeamConfig) :
    ∀ (ov : List (String × (ℚ × ℚ))) (tm : List (String × (ℚ × ℚ))),
      (∀ p ∈ ov, (to_nickname_dict cfg).lookup p.1 = none) →
      ov.foldl (fun tm p =>
          match (to_nickname_dict cfg).lookup p.1 with
          | some fwv => pyInsert tm fwv.1 p.2
          | none => tm) tm = tm := by
  intro ov
  induction ov with
  | nil => intro tm _; rfl
  | cons p ov ih =>
      intro tm h
      simp only [List.foldl_cons, h p (List.mem_cons_self p ov)]
      exact ih tm fun q hq => h q (List.mem_cons_of_mem p hq)

/-- Claim C6: Override resolution starts from the configured members: the
result's keys are exactly the configured full names; overrides for unknown
nicknames are silently ignored (the result is the untouched member dict);
and an override matching a configured nickname replaces that member's
(work-days, velocity) pair under their full name. -/
theorem apply_overrides_spec (cfg : TeamConfig)
    (ov : List (String × (ℚ × ℚ))) :
    (∀ k, k ∈ (apply_overrides cfg ov).map Prod.fst ↔
      ∃ m ∈ cfg.members, m.name = k) ∧
    ((∀ p ∈ ov, (to_nickname_dict cfg).lookup p.1 = none) →
      apply_overrides cfg ov = to_member_dict cfg) ∧
    (∀ nick n w v w2 v2,
      (to_nickname_dict cfg).lookup nick = some (n, w, v) →
      (apply_overrides cfg [(nick, (w2, v2))]).lookup n = some (w2, v2)) := by
  refine ⟨?_, ?_, ?_⟩
  · intro k
    exact apply_overrides_keys_aux cfg ov (to_member_dict cfg)
      (mem_member_dict_keys_iff cfg) k
  · intro h
    exact apply_overrides_none_aux cfg ov (to_member_dict cfg) h
  · intro nick n w v w2 v2 h
    unfold apply_overrides
    simp only [List.foldl_cons, List.foldl_nil, h]
    exact lookup_pyInsert_self _ n (w2, v2)

/-- Witness for C6: an override for the unconfigured nickname `"ghost"`
leaves the member dict untouched (and does not raise — the function is
total), while an override for the configured `"bob"` replaces Bob's pair. -/
theorem apply_overrides_spec_witness :
    apply_overrides wCfg [("ghost", (7, 3))] = to_member_dict wCfg ∧
    (apply_overrides wCfg [("bob", (7, 3))]).lookup "Bob Jones" =
      some (7, 3) ∧
    "Alice Smith" ∈ (apply_overrides wCfg [("ghost", (7, 3))]).map Prod.fst := by
  refine ⟨(apply_overrides_spec wCfg [("ghost", (7, 3))]).2.1 ?_,
    (apply_overrides_spec wCfg [("bob", (7, 3))]).2.2
      "bob" "Bob Jones" 4 2 7 3 rfl,
    ((apply_overrides_spec wCfg [("ghost", (7, 3))]).1 "Alice Smith").mpr
      ⟨⟨"Alice Smith", "alice", 5, 1⟩, by simp [wCfg], rfl⟩⟩
  intro p hp
  rw [List.mem_singleton.mp hp]
  rfl

/-- Helper: a member validates successfully iff it satisfies `memberValid`. -/
theorem validate_member_ok_iff (name nickname : String) (wd vel : ℚ) :
    (∃ m, validate_member name nickname wd vel = .ok m) ↔
      memberValid name nickname wd vel := by
  unfold validate_member memberValid
  split
  · next h => exact ⟨fun _ => h, fun _ => ⟨_, rfl⟩⟩
  · next h =>
      constructor
      · rintro ⟨m, hm⟩
        simp at hm
      · intro hv
        exact absurd hv h

/-- Helper: the member list validates iff every raw member is valid. -/
theorem validate_members_ok_iff :
    ∀ raw : List (String × String × ℚ × ℚ),
      (∃ ms, validate_members raw = .ok ms) ↔
        ∀ r ∈ raw, memberValid r.1 r.2.1 r.2.2.1 r.2.2.2 := by
  intro raw
  induction raw with
  | nil => simp [validate_members]
  | cons r rs ih =>
      constructor
      · rintro ⟨ms, hms⟩
        unfold validate_members at hms
        cases hv : validate_member r.1 r.2.1 r.2.2.1 r.2.2.2 with
        | error e => rw [hv] at hms; simp at hms
        | ok m =>
            rw [hv] at hms
            cases hrest : validate_members rs with
            | error e => rw [hrest] at hms; simp at hms
            | ok msr =>
                intro q hq
                rcases List.mem_cons.mp hq with hq | hq
                · subst hq
                  exact (validate_member_ok_iff _ _ _ _).mp ⟨m, hv⟩
                · exact (ih.mp ⟨msr, hrest⟩) q hq
      · intro hall
        rcases (validate_member_ok_iff r.1 r.2.1 r.2.2.1 r.2.2.2).mpr
          (hall r (List.mem_cons_self r rs)) with ⟨m, hm⟩
        rcases ih.mpr (fun q hq => hall q (List.mem_cons_of_mem r hq)) with
          ⟨msr, hmsr⟩
        exact ⟨m :: msr, by simp [validate_members, hm, hmsr]⟩

/-- Helper: successful validation preserves the member count. -/
theorem validate_members_length :
    ∀ (raw : List (String × String × ℚ × ℚ)) (ms : List TeamMember),
      validate_members raw = .ok ms → ms.length = raw.length := by
  intro raw
  induction raw with
  | nil =>
      intro ms h
      simp only [validate_members] at h
      rw [← Except.ok.injEq .. |>.mp h]
      rfl
  | cons r rs ih =>
      intro ms h
      unfold validate_members at h
      cases hv : validate_member r.1 r.2.1 r.2.2.1 r.2.2.2 with
      | error e => rw [hv] at h; simp at h
      | ok m =>
          rw [hv] at h
          cases hrest : validate_members rs with
          | error e => rw [hrest] at h; simp at h
          | ok msr =>
              rw [hrest] at h
              simp only at h
              rw [← Except.ok.injEq .. |>.mp h]
              simp [ih msr hrest]

/-- Claim C7 counterexample: The claim says a duplicate nickname makes
loading fail; the code has no duplicate check — a config where both members
share the nickname `"p"` loads successfully. -/
theorem duplicate_nickname_accepted :
    load_team_config [("Alice", "p", 5, 1), ("Bob", "p", 5, 1)] =
      .ok ⟨[⟨"Alice", "p", 5, 1⟩, ⟨"Bob", "p", 5, 1⟩]⟩ := rfl

/-- Claim C7 amended: Loading succeeds iff the member list is non-empty and
every member is structurally valid (positive work-days at most 10, positive
velocity, name and nickname of length ≥ 1 and non-empty after stripping);
all of this is checked at load time. Duplicate nicknames are NOT rejected. -/
theorem load_team_config_iff (raw : List (String × String × ℚ × ℚ)) :
    (∃ cfg, load_team_config raw = .ok cfg) ↔
      (raw ≠ [] ∧ ∀ r ∈ raw, memberValid r.1 r.2.1 r.2.2.1 r.2.2.2) := by
  constructor
  · rintro ⟨cfg, hcfg⟩
    unfold load_team_config at hcfg
    cases hv : validate_members raw with
    | error e => rw [hv] at hcfg; simp at hcfg
    | ok ms =>
        rw [hv] at hcfg
        have hcfg' : (if ms.length < 1 then (Except.error () : Except Unit TeamConfig)
            else Except.ok ⟨ms⟩) = Except.ok cfg := hcfg
        by_cases hlen : ms.length < 1
        · rw [if_pos hlen] at hcfg'; simp at hcfg'
        · refine ⟨?_, (validate_members_ok_iff raw).mp ⟨ms, hv⟩⟩
          intro hraw
          apply hlen
          rw [validate_members_length raw ms hv, hraw]
          simp
  · rintro ⟨hne, hall⟩
    rcases (validate_members_ok_iff raw).mpr hall with ⟨ms, hms⟩
    refine ⟨⟨ms⟩, ?_⟩
    unfold load_team_config
    rw [hms]
    show (if ms.length < 1 then (Except.error () : Except Unit TeamConfig)
      else Except.ok ⟨ms⟩) = Except.ok ⟨ms⟩
    rw [if_neg ?_]
    rw [validate_members_length raw ms hms]
    have : raw.length ≠ 0 := fun h => hne (List.length_eq_zero.mp h)
    omega

/-- Witness for the amended C7: a valid single-member config loads; the same
config with `wd = 11` is rejected at load time. -/
theorem load_team_config_iff_witness :
    (∃ cfg, load_team_config [("Alice Smith", "alice", 5, 1)] = .ok cfg) ∧
    ¬ ∃ cfg, load_team_config [("Alice Smith", "alice", 11, 1)] = .ok cfg := by
  constructor
  · refine (load_team_config_iff _).mpr ⟨by simp, ?_⟩
    intro r hr
    rw [List.mem_singleton.mp hr]
    exact ⟨by decide, by decide, by norm_num, by norm_num, by norm_num,
      by decide, by decide⟩
  · rintro ⟨cfg, hcfg⟩
    have h := ((load_team_config_iff _).mp ⟨cfg, hcfg⟩).2
      ("Alice Smith", "alice", 11, 1) (by simp)
    have h10 : ((11 : ℚ) ≤ 10) := h.2.2.2.1
    norm_num at h10

/-- Claim C8 counterexample: The claim says a non-numeric estimate value
normalizes to 0; on the truthy non-numeric string `"abc"` the code's
`float(...)` call instead raises `ValueError`. -/
theorem estimate_non_numeric_raises :
    getHle (some (.str "abc")) = .error () := rfl

/-- Claim C8 amended: An absent, null, or otherwise falsy estimate value
(e.g. the empty string or the number 0) normalizes to estimate 0 and a
numeric value passes through; but a truthy non-numeric string makes
classification raise `ValueError`. An absent (or null) priority-score value
normalizes to 0. -/
theorem estimate_priority_normalization (hleField wsjfField : Option PyVal) :
    (hleField = Option.none → getHle hleField = .ok 0) ∧
    (hleField = some PyVal.none → getHle hleField = .ok 0) ∧
    (∀ v, hleField = some v → v.truthy = false → getHle hleField = .ok 0) ∧
    (∀ q, hleField = some (.num q) → getHle hleField = .ok q) ∧
    (∀ s, hleField = some (.str s) → s ≠ "" →
      pyFloatOfString s = .error () → getHle hleField = .error ()) ∧
    (wsjfField = Option.none → getWsjf wsjfField = .ok 0) ∧
    (wsjfField = some PyVal.none → getWsjf wsjfField = .ok 0) := by
  refine ⟨fun h => by subst h; rfl, fun h => by subst h; rfl, ?_, ?_, ?_,
    fun h => by subst h; rfl, fun h => by subst h; rfl⟩
  · intro v hv htr
    subst hv
    simp [getHle, htr, pyFloat]
  · intro q hq
    subst hq
    by_cases h0 : q = 0
    · subst h0
      rfl
    · simp [getHle, PyVal.truthy, h0, pyFloat]
  · intro s heq hne herr
    subst heq
    simp [getHle, PyVal.truthy, hne, pyFloat, herr]

/-- Witness for the amended C8: the normalization clauses applied at
concrete field values, including `"abc"` raising. -/
theorem estimate_priority_normalization_witness :
    getHle Option.none = .ok 0 ∧
    getHle (some PyVal.none) = .ok 0 ∧
    getHle (some (.str "")) = .ok 0 ∧
    getHle (some (.num 7)) = .ok 7 ∧
    getHle (some (.str "abc")) = .error () ∧
    getWsjf Option.none = .ok 0 := by
  refine ⟨(estimate_priority_normalization Option.none Option.none).1 rfl,
    (estimate_priority_normalization (some PyVal.none) Option.none).2.1 rfl,
    (estimate_priority_normalization (some (.str "")) Option.none).2.2.1
      (.str "") rfl (by decide),
    (estimate_priority_normalization (some (.num 7)) Option.none).2.2.2.1
      7 rfl,
    (estimate_priority_normalization (some (.str "abc")) Option.none).2.2.2.2.1
      "abc" rfl (by decide) rfl,
    (estimate_priority_normalization Option.none Option.none).2.2.2.2.2.1 rfl⟩

end Jirafly
